import Mathlib

/-!
# Error-chain comparators of `core/sp` (`compare.go`)

A shallow embedding of the three comparators `Is`, `DeepIs`, `IsSP` and of the
helper `cmpHashes`, over an explicit heap of `Error` structs.

* Go pointers `*Error` are `Option Nat`: `none` is `nil`, `some a` is the
  address `a` of a heap cell.
* Go `error` interface values are `Option E`: `none` is the nil interface,
  `some x` a non-nil error value of some dynamic type.
* A nil-pointer dereference (a Go panic) is `Except.error Fault.nilDeref`.
* The `for` loop of `DeepIs` is driven by a fuel counter; running out of fuel
  is `Fault.outOfFuel`, and the theorems show that a finite chain never
  reaches it.
-/

namespace Sperr

/-- Ways in which a run of the model stops without a Go return value. -/
inductive Fault where
  /-- Go panic: a field is read or written through a nil pointer or nil interface. -/
  | nilDeref
  /-- An address outside the heap; Go pointers cannot produce it. -/
  | badAddr
  /-- The loop budget of the model ran out (the Go loop is still running). -/
  | outOfFuel
  deriving DecidableEq, Repr

/-- The part of `hash.Hash` the comparators use: a hash object is determined by
the digest its accumulated state finalizes to (bytes as naturals). -/
structure Hash where
  digest : List Nat
  deriving DecidableEq, Repr

/-- Go `hash.Hash.Sum(b)`: appends the current digest to `b` and returns the
resulting slice; the hash state is left as it is. -/
def Hash.Sum (h : Hash) (b : List Nat) : List Nat := b ++ h.digest

/-- Modelled from the spec: the struct declaration `Error` is not among the
sources. Fields follow the data model of the spec (section 3) and the field
names used in `compare.go`: `cause` (an `error` interface value), `id` (the
content hash object) and the link to the previous `Error` of the chain
(a `*Error`, nil at the root). -/
structure Error (E : Type) where
  cause : Option E
  id : Hash
  prev : Option Nat
  deriving DecidableEq, Repr

/-- A heap cell holding an `Error` variable. `some n` is a struct with the
contents `n`; `none` is the empty struct `Error{}` that `DeepIs` allocates for
its private copy, which is also what a holder becomes once it has been popped
past the root ("nothing left", section 4.1 of the spec). -/
abbrev Cell (E : Type) := Option (Error E)

/-- The heap: cell `a` lives at index `a`; allocation appends a cell. -/
abbrev Heap (E : Type) := List (Cell E)

/-- Dereference `*p`. -/
def load {E : Type} (h : Heap E) : Option Nat → Except Fault (Cell E)
  | none => .error .nilDeref
  | some a =>
    match h[a]? with
    | none => .error .badAddr
    | some c => .ok c

/-- Field read `.cause` of a cell; the empty struct has a nil cause. -/
def Cell.cause {E : Type} : Cell E → Option E
  | none => none
  | some n => n.cause

/-- Field read `.id` of a cell; the empty struct has a nil hash. -/
def Cell.id {E : Type} : Cell E → Option Hash
  | none => none
  | some n => some n.id

/-- Go `cmp.Compare` on bytes: -1, 0 or +1. -/
def cmpCompare (x y : Nat) : Int :=
  if x < y then -1 else if x > y then 1 else 0

/-- Go `slices.Compare`: elementwise comparison up to the first difference;
if one slice runs out first, the shorter one is the smaller. -/
def slicesCompare : List Nat → List Nat → Int
  | [], [] => 0
  | [], _ :: _ => -1
  | _ :: _, [] => 1
  | v1 :: s1, v2 :: s2 =>
    if cmpCompare v1 v2 ≠ 0 then cmpCompare v1 v2 else slicesCompare s1 s2

/-- Go `errors.Is(err, target)`. If either side is nil the answer is
`err == target`; otherwise the standard library walks the unwrap tree of `err`,
which depends on the dynamic types of the two errors and is the parameter
`is` (a total, side-effect free test on non-nil errors). -/
def errorsIs {E : Type} (is : E → E → Bool) : Option E → Option E → Bool
  | none, none => true
  | none, some _ => false
  | some _, none => false
  | some x, some t => is x t

/-- Modelled from the spec: the method `(*Error).Pop` is not among the
sources. Section 4.1: it
"returns the current node as a value-detached snapshot, then advances the
receiver ... one link back in the chain; returns an absent result ... when
called past the root", and "each call mutates the receiver in place". The
snapshot is a fresh cell holding a copy of the receiver; the receiver then
takes the contents of its previous node, or becomes the empty struct when it
was the root. The result is the new heap and the returned pointer. -/
def Pop {E : Type} (h : Heap E) (e : Option Nat) : Except Fault (Heap E × Option Nat) :=
  match e with
  | none => .error .nilDeref
  | some a =>
    match h[a]? with
    | none => .error .badAddr
    | some none => .ok (h, none)
    | some (some n) =>
      match n.prev with
      | none => .ok ((h ++ [some n]).set a none, some h.length)
      | some p =>
        match h[p]? with
        | none => .error .badAddr
        | some c => .ok ((h ++ [some n]).set a c, some h.length)

/-- Method `(*Error).Is`: `errors.Is(e.cause, err)`. A pure read. -/
def Is {E : Type} (is : E → E → Bool) (h : Heap E) (e : Option Nat) (err : Option E) :
    Except Fault Bool :=
  match load h e with
  | .error f => .error f
  | .ok c => .ok (errorsIs is c.cause err)

/-- What a run of `DeepIs` leaves behind: the heap, the returned boolean, and
the causes handed to `errors.Is`, in the order of the calls. -/
structure Run (E : Type) where
  heap : Heap E
  result : Bool
  compared : List (Option E)
  deriving DecidableEq, Repr

/-- The `for` loop of `DeepIs`: pop the private copy `cp`; stop with `false`
on a nil head, with `true` when `errors.Is(head.cause, err)` holds. `seen`
accumulates the causes compared so far. -/
def DeepIsLoop {E : Type} (is : E → E → Bool) (err : Option E) :
    Nat → Heap E → Nat → List (Option E) → Except Fault (Run E)
  | 0, _, _, _ => .error .outOfFuel
  | fuel + 1, h, cp, seen =>
    match Pop h (some cp) with
    | .error f => .error f
    | .ok (h1, none) => .ok ⟨h1, false, seen⟩
    | .ok (h1, some head) =>
      match load h1 (some head) with
      | .error f => .error f
      | .ok c =>
        if errorsIs is c.cause err then .ok ⟨h1, true, seen ++ [c.cause]⟩
        else DeepIsLoop is err fuel h1 cp (seen ++ [c.cause])

/-- Method `(*Error).DeepIs`: allocate `cp = &Error{}`, copy `*cp = *e`, then
run the loop on `cp`. -/
def DeepIs {E : Type} (is : E → E → Bool) (fuel : Nat) (h : Heap E) (e : Option Nat)
    (err : Option E) : Except Fault (Run E) :=
  let cp := h.length
  let h0 := h ++ [none]
  match load h e with
  | .error f => .error f
  | .ok c => DeepIsLoop is err fuel (h0.set cp c) cp []

/-- Function `cmpHashes`: `slices.Compare(h1.Sum(nil), h2.Sum(nil)) == 0`; a
nil hash interface panics on the method call. -/
def cmpHashes (h1 h2 : Option Hash) : Except Fault Bool :=
  match h1, h2 with
  | some a, some b => .ok (slicesCompare (a.Sum []) (b.Sum []) == 0)
  | _, _ => .error .nilDeref

/-- Method `(*Error).IsSP`: `slices.Compare(e.id.Sum(nil), err.id.Sum(nil)) == 0`.
The receiver is dereferenced first, then the argument. -/
def IsSP {E : Type} (h : Heap E) (e err : Option Nat) : Except Fault Bool :=
  match load h e with
  | .error f => .error f
  | .ok c1 =>
    match c1.id with
    | none => .error .nilDeref
    | some i1 =>
      match load h err with
      | .error f => .error f
      | .ok c2 =>
        match c2.id with
        | none => .error .nilDeref
        | some i2 => .ok (slicesCompare (i1.Sum []) (i2.Sum []) == 0)

/-- The chain starting at pointer `p` is finite and consists of exactly the
nodes `ns`, newest first: every link points at a cell holding the next node,
and the last node has a nil link. -/
def Chain {E : Type} (h : Heap E) : Option Nat → List (Error E) → Prop
  | none, [] => True
  | some a, n :: ns => h[a]? = some (some n) ∧ Chain h n.prev ns
  | none, _ :: _ => False
  | some _, [] => False

/-- The causes `DeepIs` is expected to compare on the chain `ns`: each node in
turn, up to and including the first one that matches. -/
def visited {E : Type} (is : E → E → Bool) (err : Option E) : List (Error E) → List (Option E)
  | [] => []
  | n :: ns => n.cause :: (if errorsIs is n.cause err then [] else visited is err ns)

/-- Call `Pop` on the same holder `k` times, collecting the returned pointers. -/
def popTimes {E : Type} : Nat → Heap E → Option Nat → Except Fault (Heap E × List (Option Nat))
  | 0, h, _ => .ok (h, [])
  | k + 1, h, e =>
    match Pop h e with
    | .error f => .error f
    | .ok (h1, r) =>
      match popTimes k h1 e with
      | .error f => .error f
      | .ok (h2, rs) => .ok (h2, r :: rs)

/-- Scenario of the spec, section 8: the chain A, B, C (C oldest) with three
distinct sentinel causes 1, 2, 3 and distinct digests. C is at address 0,
B at 1 and the head A at 2. -/
def nodeC : Error Nat := ⟨some 3, ⟨[3]⟩, none⟩

/-- Node B of the scenario; its link points at C. -/
def nodeB : Error Nat := ⟨some 2, ⟨[2]⟩, some 0⟩

/-- Node A of the scenario, the head; its link points at B. -/
def nodeA : Error Nat := ⟨some 1, ⟨[1]⟩, some 1⟩

/-- The heap of the scenario. -/
def scenarioHeap : Heap Nat := [some nodeC, some nodeB, some nodeA]

/-- Two unrelated root errors whose identity hashes both finalize to the
empty digest. -/
def emptyDigestHeap : Heap Nat := [some ⟨some 1, ⟨[]⟩, none⟩, some ⟨some 2, ⟨[]⟩, none⟩]

/-- A root error next to an empty struct `Error{}` (no cause, no identity
hash), as `DeepIs` allocates one for its private copy. -/
def emptyStructHeap : Heap Nat := [some ⟨some 1, ⟨[1]⟩, none⟩, none]

/-- A root error whose cause is the nil interface. -/
def nilCauseHeap : Heap Nat := [some ⟨none, ⟨[7]⟩, none⟩]

/-- Sentinel errors compared by identity: the simplest instance of the
`errors.Is` convention, used for concrete scenarios. -/
def sentinelIs (x t : Nat) : Bool := x == t

/-- The holder cell `c` stands at the front of the nodes `ns` still to be
popped: it is a copy of the first of them and the rest hangs off its link, or
it is empty and nothing is left. -/
def Holds {E : Type} (h : Heap E) : Cell E → List (Error E) → Prop
  | none, [] => True
  | some n, m :: rest => n = m ∧ Chain h n.prev rest
  | none, _ :: _ => False
  | some _, [] => False

/-- None of the links `p`, then the links of the nodes `ns` but the last, is
the address `a`. -/
def Avoids {E : Type} (a : Nat) : Option Nat → List (Error E) → Prop
  | some b, n :: ns => b ≠ a ∧ Avoids a n.prev ns
  | some _, [] => True
  | none, _ => True

/-- The cell a link leads to: the empty struct for a nil link. -/
def follow {E : Type} (h : Heap E) : Option Nat → Option (Cell E)
  | none => some none
  | some p => h[p]?

/-! ## Heap extension -/

theorem getElem?_of_extends {E : Type} {h0 h : Heap E} (hx : h0 <+: h) {a : Nat} {c : Cell E}
    (ha : h0[a]? = some c) : h[a]? = some c := by
  obtain ⟨t, rfl⟩ := hx
  have hlt : a < h0.length := (List.getElem?_eq_some.mp ha).1
  rw [List.getElem?_append_left hlt]
  exact ha

theorem extends_set {E : Type} {h0 h : Heap E} (hx : h0 <+: h) {a : Nat} (ha : h0.length ≤ a)
    (c : Cell E) : h0 <+: h.set a c := by
  obtain ⟨t, rfl⟩ := hx
  rw [List.set_append_right a c ha]
  exact List.prefix_append _ _

theorem extends_push_set {E : Type} {h0 h : Heap E} (hx : h0 <+: h) {a : Nat}
    (ha : h0.length ≤ a) (c d : Cell E) : h0 <+: (h ++ [d]).set a c :=
  extends_set (hx.trans (List.prefix_append _ _)) ha c

theorem Chain.extend {E : Type} {h0 h : Heap E} (hx : h0 <+: h) :
    ∀ {p : Option Nat} {ns : List (Error E)}, Chain h0 p ns → Chain h p ns
  | none, [], _ => trivial
  | some _, _ :: _, hc => ⟨getElem?_of_extends hx hc.1, Chain.extend hx hc.2⟩
  | none, _ :: _, hc => hc.elim
  | some _, [], hc => hc.elim

theorem follow_extend {E : Type} {h0 h : Heap E} (hx : h0 <+: h) {p : Option Nat} {c : Cell E}
    (hf : follow h0 p = some c) : follow h p = some c := by
  cases p with
  | none => exact hf
  | some a => exact getElem?_of_extends hx hf

/-- A finite chain behind a link gives the next holder state. -/
theorem Chain.next {E : Type} {h : Heap E} :
    ∀ {p : Option Nat} {ns : List (Error E)}, Chain h p ns →
      ∃ c, follow h p = some c ∧ Holds h c ns
  | none, [], _ => ⟨none, rfl, trivial⟩
  | some _, m :: _, hc => ⟨some m, hc.1, rfl, hc.2⟩
  | none, _ :: _, hc => hc.elim
  | some _, [], hc => hc.elim

/-! ## One step of `Pop` -/

theorem Pop_empty {E : Type} {h : Heap E} {a : Nat} (ha : h[a]? = some none) :
    Pop h (some a) = .ok (h, none) := by
  simp [Pop, ha]

theorem Pop_node {E : Type} {h : Heap E} {a : Nat} {n : Error E} {c : Cell E}
    (ha : h[a]? = some (some n)) (hf : follow h n.prev = some c) :
    Pop h (some a) = .ok ((h ++ [some n]).set a c, some h.length) := by
  cases hp : n.prev with
  | none =>
    rw [hp] at hf
    simp only [follow, Option.some.injEq] at hf
    subst hf
    simp [Pop, ha, hp]
  | some p =>
    rw [hp] at hf
    simp only [follow] at hf
    simp [Pop, ha, hp, hf]

theorem load_snapshot {E : Type} {h : Heap E} {a : Nat} (n : Error E) (c : Cell E)
    (ha : a < h.length) :
    load ((h ++ [some n]).set a c) (some h.length) = .ok (some n) := by
  have hne : a ≠ h.length := Nat.ne_of_lt ha
  simp [load, List.getElem?_set_ne hne]

theorem holder_after_pop {E : Type} {h : Heap E} {a : Nat} (n : Error E) (c : Cell E)
    (ha : a < h.length) : ((h ++ [some n]).set a c)[a]? = some c := by
  have hlt : a < (h ++ [some n]).length := by simp; omega
  rw [List.getElem?_set_self hlt]

/-! ## The loop of `DeepIs` -/

/-- Loop invariant and result: started on a holder `cp` outside the original
heap `h0` that stands at the front of the nodes `ns`, with more fuel than
nodes, the loop returns; it reports whether some node of `ns` matches, it has
compared exactly the causes `visited` lists, and the original heap is intact. -/
theorem DeepIsLoop_spec {E : Type} (is : E → E → Bool) (err : Option E) (h0 : Heap E) (cp : Nat)
    (hcp : h0.length ≤ cp) :
    ∀ (ns : List (Error E)) (fuel : Nat) (h : Heap E) (c : Cell E) (seen : List (Option E)),
      ns.length < fuel → h0 <+: h → h[cp]? = some c → Holds h0 c ns →
      ∃ h1, h0 <+: h1 ∧
        DeepIsLoop is err fuel h cp seen =
          .ok ⟨h1, ns.any (fun n => errorsIs is n.cause err), seen ++ visited is err ns⟩ := by
  intro ns
  induction ns with
  | nil =>
    intro fuel h c seen hfuel hx hc hold
    cases c with
    | some n => exact hold.elim
    | none =>
      obtain ⟨f, rfl⟩ : ∃ f, fuel = f + 1 := ⟨fuel - 1, by simp at hfuel; omega⟩
      refine ⟨h, hx, ?_⟩
      simp [DeepIsLoop, Pop_empty hc, visited]
  | cons m rest ih =>
    intro fuel h c seen hfuel hx hc hold
    cases c with
    | none => exact hold.elim
    | some n =>
      obtain ⟨rfl, hchain⟩ := hold
      obtain ⟨f, rfl⟩ : ∃ f, fuel = f + 1 := ⟨fuel - 1, by simp at hfuel; omega⟩
      have hf : rest.length < f := by simp at hfuel; omega
      obtain ⟨c1, hfol, hold1⟩ := hchain.next
      have hlt : cp < h.length := (List.getElem?_eq_some.mp hc).1
      have hx1 : h0 <+: (h ++ [some n]).set cp c1 := extends_push_set hx hcp c1 (some n)
      have hc1 : ((h ++ [some n]).set cp c1)[cp]? = some c1 := holder_after_pop n c1 hlt
      by_cases hm : errorsIs is n.cause err = true
      · refine ⟨(h ++ [some n]).set cp c1, hx1, ?_⟩
        simp [DeepIsLoop, Pop_node hc (follow_extend hx hfol), load_snapshot n c1 hlt,
          Cell.cause, hm, visited]
      · obtain ⟨h2, hx2, hrun⟩ := ih f _ c1 (seen ++ [n.cause]) hf hx1 hc1 hold1
        refine ⟨h2, hx2, ?_⟩
        simp [DeepIsLoop, Pop_node hc (follow_extend hx hfol), load_snapshot n c1 hlt,
          Cell.cause, hm, visited, hrun]

/-- Whole-method result of `DeepIs` on a finite chain. -/
theorem DeepIs_spec {E : Type} (is : E → E → Bool) (err : Option E) (h : Heap E) (a : Nat)
    (ns : List (Error E)) (fuel : Nat) (hc : Chain h (some a) ns) (hf : ns.length < fuel) :
    ∃ h1, h <+: h1 ∧
      DeepIs is fuel h (some a) err =
        .ok ⟨h1, ns.any (fun n => errorsIs is n.cause err), visited is err ns⟩ := by
  cases ns with
  | nil => exact hc.elim
  | cons n rest =>
    have ha : h[a]? = some (some n) := hc.1
    have hx : h <+: (h ++ [none]).set h.length (some n) :=
      extends_push_set (List.prefix_refl h) (Nat.le_refl _) (some n) none
    have hcell : ((h ++ [none]).set h.length (some n))[h.length]? = some (some n) := by
      have hlt : h.length < (h ++ [none]).length := by simp
      rw [List.getElem?_set_self hlt]
    obtain ⟨h1, hx1, hrun⟩ := DeepIsLoop_spec is err h h.length (Nat.le_refl _) (n :: rest) fuel
      _ (some n) [] hf hx hcell ⟨rfl, hc.2⟩
    refine ⟨h1, hx1, ?_⟩
    simp only [DeepIs, load, ha]
    simpa using hrun

/-- The loop only writes to `cp` and to fresh cells: whatever it returns, the
cells below `cp` are as before. No assumption on the chain. -/
theorem DeepIsLoop_frame {E : Type} (is : E → E → Bool) (err : Option E) (h0 : Heap E) (cp : Nat)
    (hcp : h0.length ≤ cp) :
    ∀ (fuel : Nat) (h : Heap E) (seen : List (Option E)) (r : Run E),
      h0 <+: h → DeepIsLoop is err fuel h cp seen = .ok r → h0 <+: r.heap := by
  intro fuel
  induction fuel with
  | zero => intro h seen r _ hrun; simp [DeepIsLoop] at hrun
  | succ f ih =>
    intro h seen r hx hrun
    unfold DeepIsLoop at hrun
    cases hpop : Pop h (some cp) with
    | error e => rw [hpop] at hrun; simp at hrun
    | ok res =>
      obtain ⟨h1, head⟩ := res
      have hx1 : h0 <+: h1 := by
        unfold Pop at hpop
        simp only at hpop
        split at hpop
        · simp at hpop
        · simp only [Except.ok.injEq, Prod.mk.injEq] at hpop
          rw [← hpop.1]; exact hx
        · split at hpop
          · simp only [Except.ok.injEq, Prod.mk.injEq] at hpop
            rw [← hpop.1]; exact extends_push_set hx hcp _ _
          · split at hpop
            · simp at hpop
            · simp only [Except.ok.injEq, Prod.mk.injEq] at hpop
              rw [← hpop.1]; exact extends_push_set hx hcp _ _
      rw [hpop] at hrun
      cases head with
      | none =>
        simp only [Except.ok.injEq] at hrun
        rw [← hrun]; exact hx1
      | some hd =>
        simp only at hrun
        cases hl : load h1 (some hd) with
        | error e => rw [hl] at hrun; simp at hrun
        | ok c =>
          rw [hl] at hrun
          simp only at hrun
          split at hrun
          · simp only [Except.ok.injEq] at hrun
            rw [← hrun]; exact hx1
          · exact ih h1 _ r hx1 hrun

/-- Whatever `DeepIs` returns, every cell that existed before the call is
unchanged. No assumption on the chain. -/
theorem DeepIs_frame {E : Type} (is : E → E → Bool) (err : Option E) (fuel : Nat) (h : Heap E)
    (e : Option Nat) (r : Run E) (hrun : DeepIs is fuel h e err = .ok r) : h <+: r.heap := by
  unfold DeepIs at hrun
  simp only at hrun
  cases hl : load h e with
  | error f => rw [hl] at hrun; simp at hrun
  | ok c =>
    rw [hl] at hrun
    exact DeepIsLoop_frame is err h h.length (Nat.le_refl _) fuel _ [] r
      (extends_push_set (List.prefix_refl h) (Nat.le_refl _) c none) hrun

/-! ## `slices.Compare` -/

theorem cmpCompare_eq_zero_iff (x y : Nat) : cmpCompare x y = 0 ↔ x = y := by
  unfold cmpCompare
  split
  · constructor
    · intro h; simp at h
    · intro h; omega
  · split
    · constructor
      · intro h; simp at h
      · intro h; omega
    · constructor
      · intro _; omega
      · intro _; rfl

theorem slicesCompare_eq_zero_iff : ∀ (s1 s2 : List Nat), slicesCompare s1 s2 = 0 ↔ s1 = s2
  | [], [] => by simp [slicesCompare]
  | [], _ :: _ => by simp [slicesCompare]
  | _ :: _, [] => by simp [slicesCompare]
  | v1 :: s1, v2 :: s2 => by
    unfold slicesCompare
    by_cases hv : cmpCompare v1 v2 = 0
    · have hv2 : v1 = v2 := (cmpCompare_eq_zero_iff v1 v2).mp hv
      subst hv2
      simp [hv, slicesCompare_eq_zero_iff s1 s2]
    · have hv2 : v1 ≠ v2 := fun h => hv ((cmpCompare_eq_zero_iff v1 v2).mpr h)
      simp [hv, hv2]

theorem IsSP_nodes {E : Type} {h : Heap E} {e o : Nat} {ne no : Error E}
    (he : h[e]? = some (some ne)) (ho : h[o]? = some (some no)) :
    IsSP h (some e) (some o) = .ok (slicesCompare (ne.id.Sum []) (no.id.Sum []) == 0) := by
  simp [IsSP, load, he, ho, Cell.id]

theorem Is_node {E : Type} (is : E → E → Bool) {h : Heap E} {e : Nat} {n : Error E}
    (he : h[e]? = some (some n)) (t : Option E) :
    Is is h (some e) t = .ok (errorsIs is n.cause t) := by
  simp [Is, load, he, Cell.cause]

/-! ## Repeated `Pop` on one holder -/

theorem Chain.unique {E : Type} {h : Heap E} :
    ∀ {p : Option Nat} {ns ms : List (Error E)}, Chain h p ns → Chain h p ms → ns = ms
  | none, [], [], _, _ => rfl
  | none, [], _ :: _, _, h2 => h2.elim
  | none, _ :: _, _, h1, _ => h1.elim
  | some _, [], _, h1, _ => h1.elim
  | some _, _ :: _, [], _, h2 => h2.elim
  | some _, n :: ns, m :: ms, h1, h2 => by
    have hnm : n = m := by
      have := h1.1.symm.trans h2.1
      simpa using this
    subst hnm
    rw [Chain.unique h1.2 h2.2]

theorem Chain.avoids_of_longer {E : Type} {h : Heap E} {a : Nat} :
    ∀ {p : Option Nat} {ns : List (Error E)}, Chain h p ns →
      (∀ s, Chain h (some a) s → ns.length < s.length) → Avoids a p ns
  | none, _, _, _ => by unfold Avoids; trivial
  | some _, [], _, _ => by unfold Avoids; trivial
  | some b, n :: ns, hc, hlong => by
    refine ⟨?_, Chain.avoids_of_longer hc.2 ?_⟩
    · intro hba
      subst hba
      exact Nat.lt_irrefl _ (hlong _ hc)
    · intro s hs
      have := hlong s hs
      simp only [List.length_cons] at this
      omega

/-- A finite chain does not come back to its head. -/
theorem Chain.tail_avoids {E : Type} {h : Heap E} {a : Nat} {n : Error E}
    {rest : List (Error E)} (hc : Chain h (some a) (n :: rest)) : Avoids a n.prev rest := by
  refine Chain.avoids_of_longer hc.2 ?_
  intro s hs
  rw [Chain.unique hs hc]
  simp

theorem Chain.of_agree {E : Type} {h h1 : Heap E} {a : Nat}
    (hag : ∀ b, b ≠ a → b < h.length → h1[b]? = h[b]?) :
    ∀ {p : Option Nat} {ns : List (Error E)}, Chain h p ns → Avoids a p ns → Chain h1 p ns
  | none, [], _, _ => trivial
  | none, _ :: _, hc, _ => hc.elim
  | some _, [], hc, _ => hc.elim
  | some b, n :: ns, hc, hav => by
    have hlt : b < h.length := (List.getElem?_eq_some.mp hc.1).1
    exact ⟨(hag b hav.1 hlt).trans hc.1, Chain.of_agree hag hc.2 hav.2⟩

theorem pop_agree {E : Type} (h : Heap E) (a : Nat) (n : Error E) (c : Cell E) :
    ∀ b, b ≠ a → b < h.length → ((h ++ [some n]).set a c)[b]? = h[b]? := by
  intro b hba hlt
  rw [List.getElem?_set_ne (Ne.symm hba), List.getElem?_append_left hlt]

theorem popTimes_empty {E : Type} {h : Heap E} {a : Nat} (ha : h[a]? = some none) :
    ∀ j, popTimes j h (some a) = .ok (h, List.replicate j none)
  | 0 => rfl
  | j + 1 => by
    simp [popTimes, Pop_empty ha, popTimes_empty ha j, List.replicate_succ]

/-- The holder state after one `Pop` still stands at the front of the rest of
the chain, and that rest still avoids the holder. -/
theorem Holds.after_pop {E : Type} {h h1 : Heap E} {a : Nat}
    (hag : ∀ b, b ≠ a → b < h.length → h1[b]? = h[b]?) :
    ∀ {p : Option Nat} {c : Cell E} {rest : List (Error E)},
      follow h p = some c → Holds h c rest → Avoids a p rest →
      Holds h1 c rest ∧ ∀ m, c = some m → Avoids a m.prev rest.tail
  | _, none, [], _, _, _ => ⟨trivial, fun m hm => by simp at hm⟩
  | _, none, _ :: _, _, hold, _ => hold.elim
  | _, some _, [], _, hold, _ => hold.elim
  | none, some _, _ :: _, hf, _, _ => by simp [follow] at hf
  | some _, some n, m :: rest, _, hold, hav => by
    obtain ⟨rfl, hchain⟩ := hold
    refine ⟨⟨rfl, Chain.of_agree hag hchain hav.2⟩, ?_⟩
    intro m hm
    simp only [Option.some.injEq] at hm
    subst hm
    exact hav.2

/-- Calling `Pop` on one holder: as many non-nil results as there are nodes
left, each pointing at a copy of the corresponding node, then nil for every
further call. Cells other than the holder are left as they were. -/
theorem popTimes_spec {E : Type} (a : Nat) :
    ∀ (ns : List (Error E)) (h : Heap E) (c : Cell E) (j : Nat),
      h[a]? = some c → Holds h c ns → (∀ n, c = some n → Avoids a n.prev ns.tail) →
      ∃ (h1 : Heap E) (ps : List Nat), popTimes (ns.length + j) h (some a) =
          .ok (h1, ps.map some ++ List.replicate j none) ∧
        ps.length = ns.length ∧
        ps.map (fun p => h1[p]?) = ns.map (fun n => some (some n)) ∧
        h.length ≤ h1.length ∧
        ∀ b, b ≠ a → b < h.length → h1[b]? = h[b]? := by
  intro ns
  induction ns with
  | nil =>
    intro h c j hc hold _
    cases c with
    | some n => exact hold.elim
    | none =>
      refine ⟨h, [], ?_, rfl, rfl, Nat.le_refl _, fun _ _ _ => rfl⟩
      simp [popTimes_empty hc]
  | cons m rest ih =>
    intro h c j hc hold hav
    cases c with
    | none => exact hold.elim
    | some n =>
      have havn : Avoids a n.prev rest := hav n rfl
      obtain ⟨rfl, hchain⟩ := hold
      obtain ⟨c1, hfol, hold1⟩ := hchain.next
      have hlt : a < h.length := (List.getElem?_eq_some.mp hc).1
      have hag := pop_agree h a n c1
      obtain ⟨hold2, hav2⟩ := Holds.after_pop hag hfol hold1 havn
      obtain ⟨h2, ps, hrun, hlen, hsnap, hle, hag2⟩ :=
        ih ((h ++ [some n]).set a c1) c1 j (holder_after_pop n c1 hlt) hold2 hav2
      have hlen1 : ((h ++ [some n]).set a c1).length = h.length + 1 := by simp
      have hsnap0 : h2[h.length]? = some (some n) := by
        rw [hag2 h.length (Nat.ne_of_gt hlt) (by omega),
          List.getElem?_set_ne (Nat.ne_of_lt hlt)]
        simp
      refine ⟨h2, h.length :: ps, ?_, by simp [hlen], ?_, by omega, ?_⟩
      · have hcount : (n :: rest).length + j = (rest.length + j) + 1 := by
          simp only [List.length_cons]; omega
        rw [hcount]
        simp [popTimes, Pop_node hc hfol, hrun]
      · simp only [List.map_cons, hsnap0, hsnap]
      · intro b hba hb
        rw [hag2 b hba (by omega), hag b hba hb]

/-! ## The comparators -/

/-- C1: for an Error whose chain is finite (the nodes `ns`, newest to oldest),
`DeepIs` returns, and it returns true if and only if at least one node of the
chain satisfies `errors.Is(node.cause, target)`; it returns false exactly when
no node does. -/
theorem DeepIs_true_iff_some_node_matches {E : Type} (is : E → E → Bool) (h : Heap E) (a : Nat)
    (ns : List (Error E)) (t : Option E) (fuel : Nat)
    (hc : Chain h (some a) ns) (hf : ns.length < fuel) :
    ∃ r, DeepIs is fuel h (some a) t = .ok r ∧
      (r.result = true ↔ ∃ n ∈ ns, errorsIs is n.cause t = true) ∧
      (r.result = false ↔ ∀ n ∈ ns, errorsIs is n.cause t = false) := by
  obtain ⟨h1, _, hrun⟩ := DeepIs_spec is t h a ns fuel hc hf
  refine ⟨_, hrun, ?_, ?_⟩
  · simp
  · simp

/-- Instance of C1 on the scenario chain A, B, C with the target carried by B. -/
theorem DeepIs_true_iff_some_node_matches_witness :
    Chain scenarioHeap (some 2) [nodeA, nodeB, nodeC] ∧
    ∃ r, DeepIs sentinelIs 4 scenarioHeap (some 2) (some 2) = .ok r ∧
      (r.result = true ↔ ∃ n ∈ [nodeA, nodeB, nodeC], errorsIs sentinelIs n.cause (some 2) = true) ∧
      (r.result = false ↔ ∀ n ∈ [nodeA, nodeB, nodeC], errorsIs sentinelIs n.cause (some 2) = false) :=
  ⟨⟨rfl, rfl, rfl, trivial⟩,
    DeepIs_true_iff_some_node_matches sentinelIs scenarioHeap 2 [nodeA, nodeB, nodeC] (some 2) 4
      ⟨rfl, rfl, rfl, trivial⟩ (by decide)⟩

/-- C2: for two Errors `e` and `o`, `e.IsSP(o)` is true if and only if the
finalized digests `e.id.Sum(nil)` and `o.id.Sum(nil)` are the same byte
sequence; any other pair of Errors with the same two identity hashes, whatever
their causes and previous links and whatever heap they live in, gives the same
answer. -/
theorem IsSP_iff_digests_equal {E : Type} (h : Heap E) (e o : Nat) (ne no : Error E)
    (he : h[e]? = some (some ne)) (ho : h[o]? = some (some no)) :
    (∃ b, IsSP h (some e) (some o) = .ok b ∧ (b = true ↔ ne.id.Sum [] = no.id.Sum [])) ∧
    (∀ (h2 : Heap E) (e2 o2 : Nat) (ne2 no2 : Error E),
      h2[e2]? = some (some ne2) → h2[o2]? = some (some no2) →
      ne2.id = ne.id → no2.id = no.id →
      IsSP h2 (some e2) (some o2) = IsSP h (some e) (some o)) := by
  constructor
  · refine ⟨_, IsSP_nodes he ho, ?_⟩
    simp [slicesCompare_eq_zero_iff]
  · intro h2 e2 o2 ne2 no2 he2 ho2 hid1 hid2
    rw [IsSP_nodes he ho, IsSP_nodes he2 ho2, hid1, hid2]

/-- Instance of C2: A against B in the scenario heap. -/
theorem IsSP_iff_digests_equal_witness :
    scenarioHeap[2]? = some (some nodeA) ∧ scenarioHeap[1]? = some (some nodeB) ∧
    (∃ b, IsSP scenarioHeap (some 2) (some 1) = .ok b ∧
      (b = true ↔ nodeA.id.Sum [] = nodeB.id.Sum [])) :=
  ⟨rfl, rfl, (IsSP_iff_digests_equal scenarioHeap 2 1 nodeA nodeB rfl rfl).1⟩

/-- C3: `e.Is(t)` equals `errors.Is(e.cause, t)`; two Errors with the same
cause give the same `Is` result whatever their previous links are; and on a
chain A, B, C (C oldest) in which only the cause of B matches `t`, `A.Is(t)`
is false while `A.DeepIs(t)` is true. -/
theorem Is_does_not_walk_chain {E : Type} (is : E → E → Bool) (t : Option E)
    (h h2 h3 : Heap E) (e e2 a : Nat) (n n2 A B C : Error E) (fuel : Nat)
    (he : h[e]? = some (some n)) (he2 : h2[e2]? = some (some n2)) (hcause : n2.cause = n.cause)
    (hc : Chain h3 (some a) [A, B, C]) (hf : 3 < fuel)
    (hA : errorsIs is A.cause t = false) (hB : errorsIs is B.cause t = true)
    (hC : errorsIs is C.cause t = false) :
    Is is h (some e) t = .ok (errorsIs is n.cause t) ∧
    Is is h2 (some e2) t = Is is h (some e) t ∧
    Is is h3 (some a) t = .ok false ∧
    ∃ r, DeepIs is fuel h3 (some a) t = .ok r ∧ r.result = true := by
  refine ⟨Is_node is he t, ?_, ?_, ?_⟩
  · rw [Is_node is he t, Is_node is he2 t, hcause]
  · rw [Is_node is hc.1 t, hA]
  · obtain ⟨h1, _, hrun⟩ := DeepIs_spec is t h3 a [A, B, C] fuel hc hf
    exact ⟨_, hrun, by simp [hA, hB, hC]⟩

/-- Instance of C3: the scenario chain, with A compared against a lone copy of
its cause. -/
theorem Is_does_not_walk_chain_witness :
    Is sentinelIs scenarioHeap (some 2) (some 2) = .ok (errorsIs sentinelIs nodeA.cause (some 2)) ∧
    Is sentinelIs [some ⟨some 1, ⟨[9]⟩, none⟩] (some 0) (some 2) =
      Is sentinelIs scenarioHeap (some 2) (some 2) ∧
    Is sentinelIs scenarioHeap (some 2) (some 2) = .ok false ∧
    ∃ r, DeepIs sentinelIs 4 scenarioHeap (some 2) (some 2) = .ok r ∧ r.result = true :=
  Is_does_not_walk_chain sentinelIs (some 2) scenarioHeap [some ⟨some 1, ⟨[9]⟩, none⟩]
    scenarioHeap 2 0 2 nodeA ⟨some 1, ⟨[9]⟩, none⟩ nodeA nodeB nodeC 4 rfl rfl rfl
    ⟨rfl, rfl, rfl, trivial⟩ (by decide) rfl rfl rfl

/-- C8: for every (non-nil) Error `e`, `e.IsSP(e)` is true: the two calls of
`Sum(nil)` on its identity hash give the same digest. -/
theorem IsSP_self {E : Type} (h : Heap E) (e : Nat) (n : Error E)
    (he : h[e]? = some (some n)) : IsSP h (some e) (some e) = .ok true := by
  rw [IsSP_nodes he he]
  simp [slicesCompare_eq_zero_iff]

/-- Instance of C8: node A of the scenario. -/
theorem IsSP_self_witness :
    scenarioHeap[2]? = some (some nodeA) ∧ IsSP scenarioHeap (some 2) (some 2) = .ok true :=
  ⟨rfl, IsSP_self scenarioHeap 2 nodeA rfl⟩

/-- C9, as stated, fails: two Errors whose digests are both empty compare as
equal (`slices.Compare` of two empty slices is 0), so `IsSP` and `cmpHashes`
answer true, not false. -/
theorem IsSP_empty_digests_not_false :
    IsSP emptyDigestHeap (some 0) (some 1) = .ok true ∧
    IsSP emptyDigestHeap (some 0) (some 1) ≠ .ok false ∧
    cmpHashes (some ⟨[]⟩) (some ⟨[]⟩) = .ok true ∧
    cmpHashes (some ⟨[]⟩) (some ⟨[]⟩) ≠ .ok false := by
  refine ⟨rfl, ?_, rfl, ?_⟩
  · intro hne
    have : IsSP emptyDigestHeap (some 0) (some 1) = .ok true := rfl
    rw [this] at hne
    simp at hne
  · intro hne
    have : cmpHashes (some ⟨[]⟩) (some ⟨[]⟩) = .ok true := rfl
    rw [this] at hne
    simp at hne

/-- C9, amended: a zero-length digest is a valid input and raises no fault;
for two Errors whose identity digests are both empty `IsSP` returns true, and
so does `cmpHashes` on two hashes with empty digests. -/
theorem IsSP_empty_digests {E : Type} (h : Heap E) (e o : Nat) (ne no : Error E)
    (he : h[e]? = some (some ne)) (ho : h[o]? = some (some no))
    (hde : ne.id.Sum [] = []) (hdo : no.id.Sum [] = []) :
    IsSP h (some e) (some o) = .ok true ∧ cmpHashes (some ne.id) (some no.id) = .ok true := by
  constructor
  · rw [IsSP_nodes he ho, hde, hdo]; rfl
  · simp only [cmpHashes, hde, hdo]; rfl

/-- Instance of the amended C9 on the two empty-digest roots. -/
theorem IsSP_empty_digests_witness :
    IsSP emptyDigestHeap (some 0) (some 1) = .ok true ∧
    cmpHashes (some (⟨[]⟩ : Hash)) (some ⟨[]⟩) = .ok true :=
  IsSP_empty_digests emptyDigestHeap 0 1 ⟨some 1, ⟨[]⟩, none⟩ ⟨some 2, ⟨[]⟩, none⟩ rfl rfl rfl rfl

/-- C10: `DeepIs` subsumes `Is`. On a non-nil Error with a finite chain the
first cause `DeepIs` compares is the Error's own, so `Is` true implies `DeepIs`
true; the converse fails for some chain and target. -/
theorem DeepIs_subsumes_Is {E : Type} (is : E → E → Bool) (h : Heap E) (a : Nat) (n : Error E)
    (rest : List (Error E)) (t : Option E) (fuel : Nat)
    (hc : Chain h (some a) (n :: rest)) (hf : (n :: rest).length < fuel) :
    (∃ r, DeepIs is fuel h (some a) t = .ok r ∧ r.compared.head? = some n.cause ∧
      (Is is h (some a) t = .ok true → r.result = true)) ∧
    (∃ (h2 : Heap Nat) (b : Nat) (t2 : Option Nat) (r2 : Run Nat),
      DeepIs sentinelIs 4 h2 (some b) t2 = .ok r2 ∧ r2.result = true ∧
      Is sentinelIs h2 (some b) t2 = .ok false) := by
  constructor
  · obtain ⟨h1, _, hrun⟩ := DeepIs_spec is t h a (n :: rest) fuel hc hf
    refine ⟨_, hrun, by simp [visited], ?_⟩
    intro his
    rw [Is_node is hc.1 t] at his
    simp only [Except.ok.injEq] at his
    simp [his]
  · exact ⟨scenarioHeap, 2, some 2, _, rfl, rfl, rfl⟩

/-- Instance of C10: in the scenario, A matches its own cause under both `Is`
and `DeepIs`. -/
theorem DeepIs_subsumes_Is_witness :
    ∃ r, DeepIs sentinelIs 4 scenarioHeap (some 2) (some 1) = .ok r ∧
      r.compared.head? = some nodeA.cause ∧
      (Is sentinelIs scenarioHeap (some 2) (some 1) = .ok true → r.result = true) :=
  (DeepIs_subsumes_Is sentinelIs scenarioHeap 2 nodeA [nodeB, nodeC] (some 1) 4
    ⟨rfl, rfl, rfl, trivial⟩ (by decide)).1

/-! ### Nil and empty inputs -/

theorem Pop_ne_nilDeref {E : Type} (h : Heap E) (a : Nat) :
    Pop h (some a) ≠ .error .nilDeref := by
  unfold Pop
  simp only
  split
  · simp
  · simp
  · split
    · simp
    · split
      · simp
      · simp

theorem load_ne_nilDeref {E : Type} (h : Heap E) (a : Nat) :
    load h (some a) ≠ .error .nilDeref := by
  unfold load
  simp only
  split
  · simp
  · simp

theorem DeepIsLoop_ne_nilDeref {E : Type} (is : E → E → Bool) (err : Option E) (cp : Nat) :
    ∀ (fuel : Nat) (h : Heap E) (seen : List (Option E)),
      DeepIsLoop is err fuel h cp seen ≠ .error .nilDeref := by
  intro fuel
  induction fuel with
  | zero => intro h seen; simp [DeepIsLoop]
  | succ f ih =>
    intro h seen hrun
    unfold DeepIsLoop at hrun
    cases hpop : Pop h (some cp) with
    | error e =>
      rw [hpop] at hrun
      simp only [Except.error.injEq] at hrun
      exact Pop_ne_nilDeref h cp (by rw [hpop, hrun])
    | ok res =>
      obtain ⟨h1, head⟩ := res
      rw [hpop] at hrun
      cases head with
      | none => simp at hrun
      | some hd =>
        simp only at hrun
        cases hl : load h1 (some hd) with
        | error e =>
          rw [hl] at hrun
          simp only [Except.error.injEq] at hrun
          exact load_ne_nilDeref h1 hd (by rw [hl, hrun])
        | ok c =>
          rw [hl] at hrun
          simp only at hrun
          split at hrun
          · simp at hrun
          · exact ih h1 _ hrun

/-- On a non-nil receiver `DeepIs` never dereferences nil, whatever the heap,
the chain and the fuel. -/
theorem DeepIs_ne_nilDeref {E : Type} (is : E → E → Bool) (err : Option E) (fuel : Nat)
    (h : Heap E) (a : Nat) : DeepIs is fuel h (some a) err ≠ .error .nilDeref := by
  intro hrun
  unfold DeepIs at hrun
  simp only at hrun
  cases hl : load h (some a) with
  | error e =>
    rw [hl] at hrun
    simp only [Except.error.injEq] at hrun
    exact load_ne_nilDeref h a (by rw [hl, hrun])
  | ok c =>
    rw [hl] at hrun
    exact DeepIsLoop_ne_nilDeref is err h.length fuel _ [] hrun

/-- On a receiver that is the empty struct `Error{}` the first `Pop` returns
nil and `DeepIs` returns false without any comparison. -/
theorem DeepIs_empty_struct {E : Type} (is : E → E → Bool) (err : Option E) (fuel : Nat)
    (h : Heap E) (a : Nat) (ha : h[a]? = some none) (hf : 0 < fuel) :
    ∃ h1, DeepIs is fuel h (some a) err = .ok ⟨h1, false, []⟩ := by
  have hx : h <+: (h ++ [none]).set h.length none :=
    extends_push_set (List.prefix_refl h) (Nat.le_refl _) none none
  have hcell : ((h ++ [none]).set h.length none)[h.length]? = some (none : Cell E) := by
    have hlt : h.length < (h ++ [(none : Cell E)]).length := by simp
    rw [List.getElem?_set_self hlt]
  obtain ⟨h1, _, hrun⟩ := DeepIsLoop_spec is err h h.length (Nat.le_refl _) [] fuel
    _ none [] hf hx hcell trivial
  refine ⟨h1, ?_⟩
  simp only [DeepIs, load, ha]
  simpa [visited] using hrun

theorem errorsIs_nil_target {E : Type} (is : E → E → Bool) (c : Option E) (hne : c ≠ none) :
    errorsIs is c none = false := by
  cases c with
  | none => exact (hne rfl).elim
  | some x => rfl

/-- C4, as stated, fails: a nil receiver of `Is`, `DeepIs` or `IsSP`, and a
nil `*Error` argument of `IsSP`, is dereferenced (a Go panic) instead of being
answered with false; so is the nil identity hash of an empty struct `Error{}`
on either side of `IsSP`; and `Is` and `DeepIs` with a nil target answer true
on an Error whose cause is nil. -/
theorem comparators_nil_inputs_not_false :
    Is sentinelIs scenarioHeap none (some 1) = .error .nilDeref ∧
    DeepIs sentinelIs 4 scenarioHeap none (some 1) = .error .nilDeref ∧
    IsSP scenarioHeap none (some 2) = .error .nilDeref ∧
    IsSP scenarioHeap (some 2) none = .error .nilDeref ∧
    IsSP emptyStructHeap (some 0) (some 1) = .error .nilDeref ∧
    IsSP emptyStructHeap (some 1) (some 0) = .error .nilDeref ∧
    Is sentinelIs nilCauseHeap (some 0) none = .ok true ∧
    (∃ r, DeepIs sentinelIs 2 nilCauseHeap (some 0) none = .ok r ∧ r.result = true) :=
  ⟨rfl, rfl, rfl, rfl, rfl, rfl, rfl, _, rfl, rfl⟩

/-- C4, amended. `Is` on any non-nil receiver returns `errors.Is` of the
cause of the receiver and the target without panicking, and with a nil target
it returns false when that cause is non-nil. `DeepIs` on any non-nil receiver
never dereferences nil; it returns a boolean when the receiver heads a finite
chain, and false when the receiver is the empty struct; with a nil target it
returns false when every cause in the chain is non-nil. `IsSP` returns a
boolean without panicking when receiver and argument are non-nil and each
carries an identity hash (neither is the empty struct). -/
theorem comparators_return_on_nonnil {E : Type} (is : E → E → Bool) (h : Heap E) (e o : Nat)
    (t : Option E) (fuel : Nat) :
    (∀ c : Cell E, h[e]? = some c →
      Is is h (some e) t = .ok (errorsIs is c.cause t) ∧
      (c.cause ≠ none → Is is h (some e) none = .ok false)) ∧
    DeepIs is fuel h (some e) t ≠ .error .nilDeref ∧
    (∀ ns : List (Error E), Chain h (some e) ns → ns.length < fuel →
      (∃ r, DeepIs is fuel h (some e) t = .ok r) ∧
      ((∀ m ∈ ns, m.cause ≠ none) →
        ∃ r, DeepIs is fuel h (some e) none = .ok r ∧ r.result = false)) ∧
    (h[e]? = some none → 0 < fuel →
      ∃ r, DeepIs is fuel h (some e) t = .ok r ∧ r.result = false) ∧
    (∀ ne no : Error E, h[e]? = some (some ne) → h[o]? = some (some no) →
      ∃ b, IsSP h (some e) (some o) = .ok b) := by
  refine ⟨?_, DeepIs_ne_nilDeref is t fuel h e, ?_, ?_, ?_⟩
  · intro c hc
    have his : ∀ u : Option E, Is is h (some e) u = .ok (errorsIs is c.cause u) := by
      intro u
      simp [Is, load, hc]
    exact ⟨his t, fun hne => by rw [his none, errorsIs_nil_target is _ hne]⟩
  · intro ns hc hf
    constructor
    · obtain ⟨h1, _, hrun⟩ := DeepIs_spec is t h e ns fuel hc hf
      exact ⟨_, hrun⟩
    · intro hall
      obtain ⟨h1, _, hrun⟩ := DeepIs_spec is none h e ns fuel hc hf
      refine ⟨_, hrun, ?_⟩
      show ns.any (fun m => errorsIs is m.cause none) = false
      rw [List.any_eq_false]
      intro m hm
      simp [errorsIs_nil_target is _ (hall m hm)]
  · intro ha hf
    obtain ⟨h1, hrun⟩ := DeepIs_empty_struct is t fuel h e ha hf
    exact ⟨_, hrun, rfl⟩
  · intro ne no he ho
    exact ⟨_, IsSP_nodes he ho⟩

/-- Instance of the amended C4: `Is` and `DeepIs` on the head of the scenario
chain, `IsSP` of A against B, and `DeepIs` on an empty struct. -/
theorem comparators_return_on_nonnil_witness :
    Is sentinelIs scenarioHeap (some 2) (some 3) = .ok false ∧
    Is sentinelIs scenarioHeap (some 2) none = .ok false ∧
    DeepIs sentinelIs 4 scenarioHeap (some 2) (some 3) ≠ .error .nilDeref ∧
    (∃ r, DeepIs sentinelIs 4 scenarioHeap (some 2) (some 3) = .ok r) ∧
    (∃ r, DeepIs sentinelIs 4 scenarioHeap (some 2) none = .ok r ∧ r.result = false) ∧
    (∃ r, DeepIs sentinelIs 4 emptyStructHeap (some 1) (some 3) = .ok r ∧ r.result = false) ∧
    (∃ b, IsSP scenarioHeap (some 2) (some 1) = .ok b) := by
  have hs := comparators_return_on_nonnil sentinelIs scenarioHeap 2 1 (some 3) 4
  have he := comparators_return_on_nonnil sentinelIs emptyStructHeap 1 0 (some 3) 4
  have hchain := hs.2.2.1 [nodeA, nodeB, nodeC] ⟨rfl, rfl, rfl, trivial⟩ (by decide)
  exact ⟨(hs.1 (some nodeA) rfl).1, (hs.1 (some nodeA) rfl).2 (by decide), hs.2.1,
    hchain.1, hchain.2 (by decide), he.2.2.2.1 rfl (by decide),
    hs.2.2.2.2 nodeA nodeB rfl rfl⟩

/-- C5: `DeepIs` never mutates the chain it is called on. On a finite chain it
returns; the heap it leaves extends the old one, so every cell that existed
before the call (the receiver with its cause, identity and previous link, and
every node reachable from it) is unchanged and the chain is still the same
list of nodes; a second call on the heap left by the first returns the same
result. The old cells are unchanged after every call that returns, whatever
the receiver and its chain. -/
theorem DeepIs_leaves_chain_intact {E : Type} (is : E → E → Bool) (h : Heap E) (a : Nat)
    (ns : List (Error E)) (t : Option E) (fuel : Nat)
    (hc : Chain h (some a) ns) (hf : ns.length < fuel) :
    ∃ r, DeepIs is fuel h (some a) t = .ok r ∧
      h <+: r.heap ∧
      (∀ (b : Nat) (c : Cell E), h[b]? = some c → r.heap[b]? = some c) ∧
      Chain r.heap (some a) ns ∧
      (∃ r2, DeepIs is fuel r.heap (some a) t = .ok r2 ∧ r2.result = r.result) ∧
      (∀ (g : Heap E) (e : Option Nat) (f : Nat) (r3 : Run E),
        DeepIs is f g e t = .ok r3 → g <+: r3.heap) := by
  obtain ⟨h1, hx, hrun⟩ := DeepIs_spec is t h a ns fuel hc hf
  have hc1 : Chain h1 (some a) ns := Chain.extend hx hc
  obtain ⟨h2, _, hrun2⟩ := DeepIs_spec is t h1 a ns fuel hc1 hf
  exact ⟨_, hrun, hx, fun b c hb => getElem?_of_extends hx hb, hc1, ⟨_, hrun2, rfl⟩,
    fun g e f r3 hr => DeepIs_frame is t f g e r3 hr⟩

/-- Instance of C5 on the scenario chain. -/
theorem DeepIs_leaves_chain_intact_witness :
    ∃ r, DeepIs sentinelIs 4 scenarioHeap (some 2) (some 3) = .ok r ∧
      scenarioHeap <+: r.heap ∧
      (∀ (b : Nat) (c : Cell Nat), scenarioHeap[b]? = some c → r.heap[b]? = some c) ∧
      Chain r.heap (some 2) [nodeA, nodeB, nodeC] ∧
      (∃ r2, DeepIs sentinelIs 4 r.heap (some 2) (some 3) = .ok r2 ∧ r2.result = r.result) ∧
      (∀ (g : Heap Nat) (e : Option Nat) (f : Nat) (r3 : Run Nat),
        DeepIs sentinelIs f g e (some 3) = .ok r3 → g <+: r3.heap) :=
  DeepIs_leaves_chain_intact sentinelIs scenarioHeap 2 [nodeA, nodeB, nodeC] (some 3) 4
    ⟨rfl, rfl, rfl, trivial⟩ (by decide)

theorem visited_of_no_match {E : Type} (is : E → E → Bool) (t : Option E) :
    ∀ (ns : List (Error E)), (∀ n ∈ ns, errorsIs is n.cause t = false) →
      visited is t ns = ns.map (fun n => n.cause)
  | [], _ => rfl
  | n :: ns, hall => by
    have hn : errorsIs is n.cause t = false := hall n (List.mem_cons_self n ns)
    have ih := visited_of_no_match is t ns (fun m hm => hall m (List.mem_cons_of_mem n hm))
    simp [visited, hn, ih]

theorem visited_of_last_match {E : Type} (is : E → E → Bool) (t : Option E) (last : Error E)
    (hl : errorsIs is last.cause t = true) :
    ∀ (front : List (Error E)), (∀ n ∈ front, errorsIs is n.cause t = false) →
      visited is t (front ++ [last]) = (front ++ [last]).map (fun n => n.cause)
  | [], _ => by simp [visited, hl]
  | n :: front, hall => by
    have hn : errorsIs is n.cause t = false := hall n (List.mem_cons_self n front)
    have ih := visited_of_last_match is t last hl front
      (fun m hm => hall m (List.mem_cons_of_mem n hm))
    show n.cause :: (if errorsIs is n.cause t = true then []
      else visited is t (front ++ [last])) = _
    rw [hn, ih]
    simp

/-- C6: `DeepIs` compares the causes of the chain nodes from the most recent
to the oldest and stops at the first match (the causes compared are exactly
`visited`). On a chain of N nodes, if only the oldest node matches it makes
exactly N comparisons and returns true; if no node matches it makes exactly N
comparisons and returns false. -/
theorem DeepIs_comparison_count {E : Type} (is : E → E → Bool) (h : Heap E) (a : Nat)
    (ns : List (Error E)) (t : Option E) (fuel : Nat)
    (hc : Chain h (some a) ns) (hf : ns.length < fuel) :
    ∃ r, DeepIs is fuel h (some a) t = .ok r ∧
      1 ≤ ns.length ∧
      r.compared = visited is t ns ∧
      (∀ front last, ns = front ++ [last] →
        (∀ n ∈ front, errorsIs is n.cause t = false) → errorsIs is last.cause t = true →
        r.result = true ∧ r.compared.length = ns.length ∧
          r.compared = ns.map (fun n => n.cause)) ∧
      ((∀ n ∈ ns, errorsIs is n.cause t = false) →
        r.result = false ∧ r.compared.length = ns.length ∧
          r.compared = ns.map (fun n => n.cause)) := by
  obtain ⟨h1, _, hrun⟩ := DeepIs_spec is t h a ns fuel hc hf
  refine ⟨_, hrun, ?_, rfl, ?_, ?_⟩
  · cases ns with
    | nil => exact hc.elim
    | cons n rest => simp
  · intro front last hns hfront hlast
    subst hns
    have hv := visited_of_last_match is t last hlast front hfront
    refine ⟨?_, ?_, hv⟩
    · show (front ++ [last]).any (fun n => errorsIs is n.cause t) = true
      simp [hlast]
    · show (visited is t (front ++ [last])).length = (front ++ [last]).length
      rw [hv]; simp
  · intro hall
    have hv := visited_of_no_match is t ns hall
    refine ⟨?_, ?_, hv⟩
    · show ns.any (fun n => errorsIs is n.cause t) = false
      rw [List.any_eq_false]
      intro m hm
      simp [hall m hm]
    · show (visited is t ns).length = ns.length
      rw [hv]; simp

/-- Instance of C6: the scenario chain searched for the cause of C, its oldest
node. -/
theorem DeepIs_comparison_count_witness :
    ∃ r, DeepIs sentinelIs 4 scenarioHeap (some 2) (some 3) = .ok r ∧
      r.result = true ∧ r.compared.length = 3 ∧ r.compared = [some 1, some 2, some 3] := by
  obtain ⟨r, hrun, _, _, hlast, _⟩ :=
    DeepIs_comparison_count sentinelIs scenarioHeap 2 [nodeA, nodeB, nodeC] (some 3) 4
      ⟨rfl, rfl, rfl, trivial⟩ (by decide)
  obtain ⟨hres, hlen, hcmp⟩ := hlast [nodeA, nodeB] nodeC rfl (by decide) rfl
  exact ⟨r, hrun, hres, hlen, hcmp⟩

/-- C7: on a chain of N >= 1 nodes, N+1 calls of `Pop` yield N non-nil
results, pointing at copies of the nodes from the newest to the oldest,
followed by one nil result, and each of any number `k` of further calls yields
nil again; and the loop of `DeepIs` terminates on every finite chain. -/
theorem Pop_exhausts_chain {E : Type} (is : E → E → Bool) (h : Heap E) (a : Nat)
    (ns : List (Error E)) (k : Nat) (t : Option E) (fuel : Nat)
    (hc : Chain h (some a) ns) (hf : ns.length < fuel) :
    1 ≤ ns.length ∧
    (∃ (h1 : Heap E) (ps : List Nat), popTimes (ns.length + (1 + k)) h (some a) =
        .ok (h1, ps.map some ++ List.replicate (1 + k) none) ∧
      ps.length = ns.length ∧
      ps.map (fun p => h1[p]?) = ns.map (fun n => some (some n))) ∧
    (∃ r, DeepIs is fuel h (some a) t = .ok r) := by
  cases ns with
  | nil => exact hc.elim
  | cons n rest =>
    refine ⟨by simp, ?_, ?_⟩
    · obtain ⟨h1, ps, hrun, hlen, hsnap, _, _⟩ :=
        popTimes_spec a (n :: rest) h (some n) (1 + k) hc.1 ⟨rfl, hc.2⟩
          (fun m hm => by
            simp only [Option.some.injEq] at hm
            subst hm
            exact hc.tail_avoids)
      exact ⟨h1, ps, hrun, hlen, hsnap⟩
    · obtain ⟨h1, _, hrun⟩ := DeepIs_spec is t h a (n :: rest) fuel hc hf
      exact ⟨_, hrun⟩

/-- Instance of C7 on the scenario chain: four calls and two more. -/
theorem Pop_exhausts_chain_witness :
    1 ≤ [nodeA, nodeB, nodeC].length ∧
    (∃ (h1 : Heap Nat) (ps : List Nat),
      popTimes ([nodeA, nodeB, nodeC].length + (1 + 2)) scenarioHeap (some 2) =
        .ok (h1, ps.map some ++ List.replicate (1 + 2) none) ∧
      ps.length = [nodeA, nodeB, nodeC].length ∧
      ps.map (fun p => h1[p]?) = [nodeA, nodeB, nodeC].map (fun n => some (some n))) ∧
    (∃ r, DeepIs sentinelIs 4 scenarioHeap (some 2) (some 9) = .ok r) :=
  Pop_exhausts_chain sentinelIs scenarioHeap 2 [nodeA, nodeB, nodeC] 2 (some 9) 4
    ⟨rfl, rfl, rfl, trivial⟩ (by decide)

end Sperr
